import Mathlib

/-!
Verification development for the PSA resume optimizer's ontological matching
engine (`src/app.py`).  The Python code is shallowly embedded as executable
Lean definitions.  Modelling conventions:

* Python `float` values are modelled as exact rationals (`ℚ`); `round(x, 1)`
  is modelled as `roundTo1`, rounding `x * 10` to the nearest integer and
  dividing by 10 (half-way cases are immaterial to every statement below).
* Python `dict`s are modelled as association lists (`List (String × _)`) in
  insertion order; `d[k] = v` is `dictSet` (update in place when the key is
  present, append otherwise), `d.get`/`d[k]` is `alookup`.
* Python `set`s of strings are modelled as `Finset String`; where the code
  iterates over a set to build a list, a fixed enumeration (the deduplicated
  construction order) stands in for CPython's unspecified set order — every
  ordering property proved below holds for any enumeration.
* Character classes (`[a-z]`, `\w`, `\s`, `str.lower`, `str.isdigit`) are
  modelled at ASCII granularity, matching the documents the app processes.
* Mutation of Python objects is modelled by explicit state passing: the
  analysis entry point returns, alongside its result, the value of the
  caller's ontology object as it stands after the call (`dict.copy()` is a
  shallow copy, so the inner `SignalDomains` dict is shared, not copied).
-/

namespace PSA

/-- `MIN_WORD_LENGTH` configuration constant from `app.py`. -/
def MIN_WORD_LENGTH : Nat := 2

/-- Models `re.sub(r'([a-z])([A-Z])', r'\1 \2', text)`: insert a space
between a lowercase ASCII letter immediately followed by an uppercase one.
(The second character of a match can never start another match, so the
left-to-right non-overlapping scan is this simple recursion.) -/
def camelSplit : List Char → List Char
  | a :: b :: rest =>
      if a.isLower && b.isUpper then a :: ' ' :: camelSplit (b :: rest)
      else a :: camelSplit (b :: rest)
  | l => l

/-- Does `https?://\S+` match at the head of this non-whitespace run?
The trailing `\S+` requires at least one character after the `//`. -/
def urlAt (l : List Char) : Bool :=
  ("http://".toList.isPrefixOf l && decide (7 < l.length)) ||
  ("https://".toList.isPrefixOf l && decide (8 < l.length))

/-- Truncate a non-whitespace run at the leftmost `https?://\S+` match
(the greedy `\S+` always extends the match to the end of the run). -/
def urlTrunc : List Char → List Char
  | [] => []
  | c :: rest => if urlAt (c :: rest) then [] else c :: urlTrunc rest

/-- Does `\S+@\S+` match inside this non-whitespace run?  A match needs an
`'@'` that has at least one run character before it and one after it; the
greedy `\S+`s then make the leftmost match cover the entire run. -/
def emailRun (r : List Char) : Bool :=
  ((r.drop 1).dropLast).contains '@'

/-- Effect of `re.sub(r'https?://\S+|\S+@\S+', '', ·)` on one maximal
non-whitespace run: a run containing an inner `'@'` is removed entirely
(the email alternative matches from the start of the run); otherwise the
run is truncated at the first URL occurrence. -/
def runFilter (r : List Char) : List Char :=
  if emailRun r then [] else urlTrunc r

/-- Helper for `stripUrlsEmails`: walks the text accumulating the current
(reversed) non-whitespace run, filtering each completed run. -/
def stripAux : List Char → List Char → List Char
  | [], acc => runFilter acc.reverse
  | c :: rest, acc =>
      if c.isWhitespace then runFilter acc.reverse ++ c :: stripAux rest []
      else stripAux rest (c :: acc)

/-- Models `re.sub(r'https?://\S+|\S+@\S+', '', text)`: both alternatives
only match non-whitespace, so each maximal non-whitespace run is filtered
independently (`runFilter`) and the whitespace is preserved. -/
def stripUrlsEmails (l : List Char) : List Char := stripAux l []

/-- Models `re.sub(r'(?<![A-Z])[^\w\s\-]|(?<=[A-Z])[^\w\s\-]', ' ', ·)`:
the two look-behinds are complementary, so every character that is not a
word character, whitespace, or a hyphen becomes a space. -/
def punctToSpace (c : Char) : Char :=
  if c.isAlphanum || c = '_' || c.isWhitespace || c = '-' then c else ' '

/-- Helper for `splitWs`: accumulates the current (reversed) token. -/
def splitWsAux : List Char → List Char → List (List Char)
  | [], acc => if acc.isEmpty then [] else [acc.reverse]
  | c :: rest, acc =>
      if c.isWhitespace then
        (if acc.isEmpty then [] else [acc.reverse]) ++ splitWsAux rest []
      else splitWsAux rest (c :: acc)

/-- Models Python `str.split()` (split on whitespace, drop empty parts). -/
def splitWs (l : List Char) : List (List Char) := splitWsAux l []

/-- Models Python `str.lower()` (ASCII granularity; written as a list map
so that it reduces definitionally). -/
def pyLower (s : String) : String := String.mk (s.toList.map Char.toLower)

/-- Models Python `str.isdigit()` on a nonempty token (ASCII digits). -/
def isAllDigits (w : String) : Bool := w.toList.all Char.isDigit

/-- Adjacent-token bigrams: models the phrase loop of
`clean_and_extract_words` (`f"{tokens[i]} {tokens[i+1]}"` added whenever
both tokens have length > `MIN_WORD_LENGTH`; note there is no digit
filter on bigram constituents in the source). -/
def bigramsOf : List String → List String
  | a :: b :: rest =>
      (if decide (MIN_WORD_LENGTH < a.length) && decide (MIN_WORD_LENGTH < b.length)
        then [a ++ " " ++ b] else []) ++ bigramsOf (b :: rest)
  | _ => []

/-- `clean_and_extract_words` from `app.py` (with `preserve_phrases=True`,
as the analysis calls it): camelCase splitting, URL/email removal,
punctuation removal, lowercasing, then the union of qualifying single
tokens and qualifying adjacent bigrams. -/
def clean_and_extract_words (text : String) : Finset String :=
  if text.isEmpty then ∅
  else
    let t1 := camelSplit text.toList
    let t2 := stripUrlsEmails t1
    let t3 := t2.map punctToSpace
    let tl := t3.map Char.toLower
    let tokens := (splitWs tl).map (fun w => String.mk w)
    let words := tokens.filter
      (fun w => decide (MIN_WORD_LENGTH < w.length) && !isAllDigits w)
    (words ++ bigramsOf tokens).toFinset

/-- Models Python `needle in hay` (contiguous substring test). -/
def listContainsSub (needle : List Char) : List Char → Bool
  | [] => needle.isEmpty
  | c :: rest => needle.isPrefixOf (c :: rest) || listContainsSub needle rest

/-- Substring containment on strings, `needle in hay` in Python. -/
def strContains (hay needle : String) : Bool :=
  listContainsSub needle.toList hay.toList

/-- Python dict lookup (`d.get(k)` / `k in d`): first matching key. -/
def alookup (k : String) : List (String × α) → Option α
  | [] => none
  | p :: rest => if p.1 = k then some p.2 else alookup k rest

/-- Python dict assignment `d[k] = v`: update in place when the key is
present (keeping its position), append otherwise. -/
def dictSet (d : List (String × α)) (k : String) (v : α) : List (String × α) :=
  if (alookup k d).isSome then d.map (fun p => if p.1 = k then (k, v) else p)
  else d ++ [(k, v)]

/-- One occupation group of the ontology (`SOC_Groups` entry):
`group_data.get("signal_domains", [])` and `.get("example_titles", [])`. -/
structure SocGroup where
  signal_domains : List String
  example_titles : List String
deriving DecidableEq, Repr

/-- The loaded ontology: `SignalDomains` (domain → keyword phrases) and
`SOC_Groups` (group name → group data), both Python dicts. -/
structure Ontology where
  SignalDomains : List (String × List String)
  SOC_Groups : List (String × SocGroup)
deriving DecidableEq, Repr

/-- The result dict built at the end of `run_enhanced_ontological_analysis`. -/
structure AnalysisResult where
  predicted_soc_group : Option String
  soc_scores : List (String × ℚ)
  critical_domains : List String
  domain_scores : List (String × ℚ)
  domain_gaps : List (String × List String)
  overall_score : ℚ
  total_jd_keywords : Nat
  matched_keywords : Nat
  resume_text : String
  jd_text : String
  suggested_titles : List String
deriving DecidableEq, Repr

/-- `business_term_mappings` literal from `run_enhanced_ontological_analysis`. -/
def business_term_mappings : List (String × List String) :=
  [("Leadership & Influence",
    ["project management", "project manager", "team leadership", "stakeholder management",
     "scrum master", "product owner", "manager", "director", "coordination", "planning",
     "execution", "delivery", "milestone", "leadership", "vision", "strategy", "oversight",
     "team lead", "cross-functional", "program management", "change management"]),
   ("Systems & Structure",
    ["agile", "scrum", "waterfall", "kanban", "methodology", "process", "workflow",
     "SDLC", "requirements", "specifications", "deliverables", "timeline", "budget",
     "scope", "quality assurance", "testing", "deployment", "implementation", "integration",
     "project lifecycle", "framework", "standards", "configuration", "governance"]),
   ("AI & Technical Literacy",
    ["technology", "software", "IT", "information technology", "technical", "systems",
     "development", "programming", "database", "cloud", "security", "networking",
     "applications", "digital", "engineering", "hardware", "technical requirements"]),
   ("Communication Strategy",
    ["communication", "collaboration", "documentation", "reporting", "meeting",
     "stakeholder", "team", "coordination", "facilitation", "presentation",
     "client", "customer", "vendor", "partner", "interdisciplinary"]),
   ("Data & Evidence",
    ["analysis", "reporting", "metrics", "performance", "measurement", "evaluation",
     "quality", "testing", "documentation", "data", "tracking", "monitoring",
     "KPIs", "dashboard", "assessment", "review", "audit", "validation"]),
   ("Outcomes & Impact",
    ["results", "outcomes", "success", "performance", "improvement", "efficiency",
     "productivity", "ROI", "value", "impact", "goals", "objectives", "delivery",
     "achievements", "optimization", "cost reduction", "benefit"]),
   ("Risk & Compliance",
    ["risk management", "compliance", "standards", "policies", "procedures",
     "security", "safety", "audit", "quality", "regulatory", "governance"]),
   ("Adaptation & Flexibility",
    ["change", "flexibility", "adaptability", "problem solving", "troubleshooting",
     "innovation", "improvement", "scalability", "agility", "evolution"]),
   ("Collaboration & Relational Work",
    ["teamwork", "collaboration", "partnership", "coordination", "support",
     "communication", "relationship", "shared goals", "trust"])]

/-- The business-term override loop: `enhanced_ontology["SignalDomains"][domain]
= business_terms` for each mapping entry (both branches of the source's
`if domain in ...` do the same assignment). -/
def applyBusinessOverrides (sd : List (String × List String)) : List (String × List String) :=
  business_term_mappings.foldl (fun acc p => dictSet acc p.1 p.2) sd

/-- The value of the caller's ontology object after the analysis runs:
`ontology.copy()` is shallow, so the `SignalDomains` dict is shared and the
override loop mutates it in place; `SOC_Groups` is untouched. -/
def mutatedOntology (ont : Ontology) : Ontology :=
  { ont with SignalDomains := applyBusinessOverrides ont.SignalDomains }

/-- Python `str.split()` lifted to `String`. -/
def splitWsStr (s : String) : List String :=
  (splitWs s.toList).map (fun w => String.mk w)

/-- Per-domain keyword set: for each phrase, its lowercase form plus each of
its whitespace-delimited words (`domain_keywords.add(phrase_lower)`;
`domain_keywords.update(phrase_lower.split())`), as a deduplicated list. -/
def domainKeywordList (phrases : List String) : List String :=
  ((phrases.map (fun ph => pyLower ph :: splitWsStr (pyLower ph))).flatten).dedup

/-- `domain_keyword_map`: domain name → keyword list (a set in the source). -/
def domain_keyword_map (sd : List (String × List String)) : List (String × List String) :=
  sd.map (fun p => (p.1, domainKeywordList p.2))

/-- `domain_keywords.intersection(jd_words)` as a list in keyword order. -/
def domainJdList (dkl : List String) (jdw : Finset String) : List String :=
  dkl.filter (fun k => decide (k ∈ jdw))

/-- Keywords counted as matched: `keyword.lower() in resume_text_lower`
(case-insensitive substring of the full resume text). -/
def matchedList (rlow : String) (djk : List String) : List String :=
  djk.filter (fun k => strContains rlow (pyLower k))

/-- The unmatched (gap) keywords of a domain. -/
def gapList (rlow : String) (djk : List String) : List String :=
  djk.filter (fun k => !strContains rlow (pyLower k))

/-- `high_priority_terms` literal from the gap-ranking block. -/
def high_priority_terms : List String :=
  ["project", "management", "agile", "scrum", "team", "stakeholder",
   "delivery", "planning", "requirements", "technical", "strategy"]

/-- Does a gap contain one of the high-priority business substrings
(`any(priority_term in gap for ...)`)? -/
def hasPriority (gap : String) : Bool :=
  high_priority_terms.any (fun t => strContains gap t)

/-- Gap ranking: business-priority gaps first, then the rest, truncated to
the first 20 entries (`sorted_gaps[:20]`). -/
def rankGaps (gaps : List String) : List String :=
  (gaps.filter hasPriority ++ gaps.filter (fun g => !hasPriority g)).take 20

/-- Python `round(x, 1)` over exact rationals. -/
def roundTo1 (q : ℚ) : ℚ := ((round (q * 10) : ℤ) : ℚ) / 10

/-- The per-domain scoring/gap loop of `run_enhanced_ontological_analysis`:
domains whose keyword set misses the job description entirely are skipped;
otherwise the domain gets `round(100 * |matched| / |djk|, 1)` and, when any
keyword is unmatched, a ranked gap list. -/
def computeDomainResults (dkm : List (String × List String)) (jdw : Finset String)
    (rlow : String) : List (String × ℚ) × List (String × List String) :=
  match dkm with
  | [] => ([], [])
  | p :: rest =>
      let tailRes := computeDomainResults rest jdw rlow
      let djk := domainJdList p.2 jdw
      if djk.isEmpty then tailRes
      else
        let m := matchedList rlow djk
        let g := gapList rlow djk
        let sc := roundTo1 (((m.length : ℚ) / (djk.length : ℚ)) * 100)
        ((p.1, sc) :: tailRes.1,
          if g.isEmpty then tailRes.2 else (p.1, rankGaps g) :: tailRes.2)

/-- `all_jd_keywords`: union of the JD-intersected keyword sets (updated
only for domains whose intersection is nonempty, which is the same set). -/
def allJdKeywords (dkm : List (String × List String)) (jdw : Finset String) : Finset String :=
  dkm.foldl
    (fun acc p =>
      let djk := domainJdList p.2 jdw
      if djk.isEmpty then acc else acc ∪ djk.toFinset) ∅

/-- `it_indicators` literal. -/
def it_indicators : List String :=
  ["project manager", "project management", "it project", "agile", "scrum",
   "kanban", "waterfall", "stakeholder", "deliverable", "milestone", "sdlc",
   "requirements", "software development", "technical", "technology"]

/-- `management_indicators` literal. -/
def management_indicators : List String :=
  ["team lead", "leadership", "manager", "management", "director", "supervisor",
   "coordination", "planning", "strategy", "oversight", "cross-functional"]

/-- `it_score`: number of IT indicator phrases occurring as substrings of
the lowercased job-description text. -/
def itScore (jd_text : String) : Nat :=
  (it_indicators.filter (fun t => strContains (pyLower jd_text) t)).length

/-- `mgmt_score`: number of management indicator phrases occurring as
substrings of the lowercased job-description text. -/
def mgmtScore (jd_text : String) : Nat :=
  (management_indicators.filter (fun t => strContains (pyLower jd_text) t)).length

/-- Hand-authored score table of the `it_score >= 3 and mgmt_score >= 2` branch. -/
def strongItMgmtTable : List (String × ℚ) :=
  [("Management Occupations", 85),
   ("Computer and Mathematical Occupations", 75),
   ("AI, Data & UX Leadership Occupations", 70),
   ("Life, Physical, and Social Science Occupations", 15),
   ("Education, Training, and Library Occupations", 10)]

/-- Hand-authored score table of the `it_score >= 2` branch. -/
def strongItTable : List (String × ℚ) :=
  [("Computer and Mathematical Occupations", 80),
   ("Management Occupations", 65),
   ("AI, Data & UX Leadership Occupations", 60),
   ("Life, Physical, and Social Science Occupations", 20),
   ("Education, Training, and Library Occupations", 15)]

/-- Hand-authored score table of the `mgmt_score >= 2` branch. -/
def strongMgmtTable : List (String × ℚ) :=
  [("Management Occupations", 75),
   ("Computer and Mathematical Occupations", 50),
   ("Life, Physical, and Social Science Occupations", 25),
   ("Education, Training, and Library Occupations", 20)]

/-- The manual-override guard:
`soc_override and soc_override != "Auto Detect" and soc_override in soc_groups`
(an empty string is falsy in Python, so it never activates the override). -/
def overrideActive (ov : Option String) (socs : List (String × SocGroup)) : Bool :=
  match ov with
  | none => false
  | some s =>
      if s = "" then false
      else if s = "Auto Detect" then false
      else (alookup s socs).isSome

/-- Per-domain fallback ratios for one occupation group: for each listed
signal domain found in the keyword map whose keyword set intersects the JD
words, the ratio `|djk ∩ resume_words| / |djk|` (set intersection with the
resume word set here, not substring matching). -/
def triggeredScores (gd : SocGroup) (dkm : List (String × List String))
    (jdw resw : Finset String) : List ℚ :=
  gd.signal_domains.filterMap (fun d =>
    match alookup d dkm with
    | none => none
    | some dkl =>
        let djk := domainJdList dkl jdw
        if djk.isEmpty then none
        else some (((djk.filter (fun k => decide (k ∈ resw))).length : ℚ) / (djk.length : ℚ)))

/-- `any(term in group_name.lower() for term in ['life','physical','social','science'])`. -/
def sciencePenalty (g : String) : Bool :=
  ["life", "physical", "social", "science"].any (fun t => strContains (pyLower g) t)

/-- `any(term in group_name.lower() for term in ['education','training','library'])`. -/
def eduPenalty (g : String) : Bool :=
  ["education", "training", "library"].any (fun t => strContains (pyLower g) t)

/-- Fallback score of one occupation group: average of the triggered-domain
ratios × 100, a category bias multiplier (0.2 / 0.4 / 1.5 / 1.3 as exact
rationals), clamped to 100; 0 when no domain triggered. -/
def groupScore (gname : String) (gd : SocGroup) (dkm : List (String × List String))
    (jdw resw : Finset String) : ℚ :=
  let tds := triggeredScores gd dkm jdw resw
  if 1 ≤ tds.length then
    let avg := tds.sum / (tds.length : ℚ)
    let s0 := avg * 100
    let s1 :=
      if sciencePenalty gname then s0 * (1 / 5)
      else if eduPenalty gname then s0 * (2 / 5)
      else if strContains (pyLower gname) "management" then s0 * (3 / 2)
      else if strContains (pyLower gname) "computer" then s0 * (13 / 10)
      else s0
    min s1 100
  else 0

/-- One-by-one recursion of the fallback loop over `soc_groups`: stores
`round(score, 1)` for every group and keeps the first group whose
(unrounded) score strictly exceeds the running maximum. -/
def fallbackLoop (dkm : List (String × List String)) (jdw resw : Finset String) :
    List (String × SocGroup) → (Option String × ℚ) × List (String × ℚ) →
      (Option String × ℚ) × List (String × ℚ)
  | [], st => st
  | q :: rest, st =>
      let score := groupScore q.1 q.2 dkm jdw resw
      let scores2 := dictSet st.2 q.1 (roundTo1 score)
      fallbackLoop dkm jdw resw rest
        (if st.1.2 < score then ((some q.1, score), scores2) else (st.1, scores2))

/-- The fallback loop over `soc_groups`, starting from no best group, a
running maximum of -1, and an empty score dict. -/
def fallbackSoc (socs : List (String × SocGroup)) (dkm : List (String × List String))
    (jdw resw : Finset String) : (Option String × ℚ) × List (String × ℚ) :=
  fallbackLoop dkm jdw resw socs ((none, -1), [])

/-- The occupation-group prediction of `run_enhanced_ontological_analysis`:
manual override, then the strong indicator branches, then the fallback. -/
def predictSoc (ov : Option String) (jd_text : String) (jdw resw : Finset String)
    (dkm : List (String × List String)) (socs : List (String × SocGroup)) :
    Option String × List (String × ℚ) :=
  if overrideActive ov socs then
    let s := ov.getD ""
    (some s,
      socs.foldl (fun acc p => dictSet acc p.1 (if p.1 = s then (100 : ℚ) else 0)) [])
  else if 3 ≤ itScore jd_text ∧ 2 ≤ mgmtScore jd_text then
    (some "Management Occupations", strongItMgmtTable)
  else if 2 ≤ itScore jd_text then
    (some "Computer and Mathematical Occupations", strongItTable)
  else if 2 ≤ mgmtScore jd_text then
    (some "Management Occupations", strongMgmtTable)
  else
    let fb := fallbackSoc socs dkm jdw resw
    (fb.1.1, fb.2)

/-- `for group_name in soc_groups.keys(): if group_name not in soc_scores:
soc_scores[group_name] = 0.0`. -/
def fillMissing (scores : List (String × ℚ)) (keys : List String) : List (String × ℚ) :=
  keys.foldl (fun acc g => if (alookup g acc).isSome then acc else acc ++ [(g, 0)]) scores

/-- `soc_groups.get(best_soc_group, {}).get(field, [])`. -/
def socField (best : Option String) (socs : List (String × SocGroup))
    (f : SocGroup → List String) : List String :=
  match best with
  | none => []
  | some g =>
      match alookup g socs with
      | none => []
      | some gd => f gd

/-- `business boost` guard of the overall score. -/
def business_context_terms : List String :=
  ["project manager", "agile", "scrum", "stakeholder"]

/-- Overall score before rounding: hit rate over all JD keywords × 100,
boosted ×1.3 in business context, clamped to 100; 0 with no JD keywords. -/
def overallScore (allKw : Finset String) (rlow jlow : String) : ℚ :=
  if allKw = ∅ then 0
  else
    let m := (allKw.filter (fun k => strContains rlow (pyLower k) = true)).card
    let base := ((m : ℚ) / (allKw.card : ℚ)) * 100
    let boost := if business_context_terms.any (fun t => strContains jlow t) then (13 / 10 : ℚ) else 1
    min (base * boost) 100

/-- `resume_text[:500] + "..." if len(resume_text) > 500 else resume_text`. -/
def truncText (t : String) : String :=
  if 500 < t.length then (t.take 500).append "..." else t

/-- The analysis proper (the body of `run_enhanced_ontological_analysis`
after the input checks succeed), producing the returned result dict. -/
def analysisCore (resume_text jd_text : String) (ont : Ontology) (ov : Option String) :
    AnalysisResult :=
  let resw := clean_and_extract_words resume_text
  let jdw := clean_and_extract_words jd_text
  let dkm := domain_keyword_map (applyBusinessOverrides ont.SignalDomains)
  let socs := ont.SOC_Groups
  let rlow := pyLower resume_text
  let jlow := pyLower jd_text
  let pred := predictSoc ov jd_text jdw resw dkm socs
  let dres := computeDomainResults dkm jdw rlow
  let allKw := allJdKeywords dkm jdw
  { predicted_soc_group := pred.1
    soc_scores := fillMissing pred.2 (socs.map Prod.fst)
    critical_domains := socField pred.1 socs SocGroup.signal_domains
    domain_scores := dres.1
    domain_gaps := dres.2
    overall_score := roundTo1 (overallScore allKw rlow jlow)
    total_jd_keywords := allKw.card
    matched_keywords := (allKw.filter (fun k => strContains rlow (pyLower k) = true)).card
    resume_text := truncText resume_text
    jd_text := truncText jd_text
    suggested_titles := socField pred.1 socs SocGroup.example_titles }

/-- `run_enhanced_ontological_analysis` over already-extracted document
texts: `None` on empty text or an empty normalized word set, otherwise the
result dict.  The second component is the caller's ontology value after
the call (see `mutatedOntology`: the shallow `dict.copy()` shares the
`SignalDomains` dict, which the override loop mutates in place). -/
def run_enhanced_ontological_analysis (resume_text jd_text : String) (ont : Ontology)
    (soc_override : Option String) : Option AnalysisResult × Ontology :=
  if resume_text.isEmpty then (none, ont)
  else if jd_text.isEmpty then (none, ont)
  else if clean_and_extract_words resume_text = ∅ then (none, ont)
  else if clean_and_extract_words jd_text = ∅ then (none, ont)
  else (some (analysisCore resume_text jd_text ont soc_override), mutatedOntology ont)

/-- `calculate_trust_visibility_scores` from `app.py`: trust = average of
critical-domain scores (0 when none), visibility = fraction of gapped
domains scoring above 40 (100 with no gaps but some scores, else 0). -/
def calculate_trust_visibility_scores (r : AnalysisResult) : ℚ × ℚ :=
  let ts := (r.domain_scores.filter (fun p => decide (p.1 ∈ r.critical_domains))).map Prod.snd
  let trust : ℚ := if ts.isEmpty then 0 else ts.sum / (ts.length : ℚ)
  let vis : ℚ :=
    if r.domain_gaps.isEmpty then (if r.domain_scores.isEmpty then 0 else 100)
    else
      ((r.domain_gaps.filter
          (fun p => decide ((40 : ℚ) < (alookup p.1 r.domain_scores).getD 0))).length : ℚ) /
        (r.domain_gaps.length : ℚ) * 100
  (roundTo1 trust, roundTo1 vis)

/-- Default result value (used only to project out of an `Option`). -/
def defaultResult : AnalysisResult :=
  { predicted_soc_group := none, soc_scores := [], critical_domains := [],
    domain_scores := [], domain_gaps := [], overall_score := 0,
    total_jd_keywords := 0, matched_keywords := 0, resume_text := "",
    jd_text := "", suggested_titles := [] }

/-- Projection out of an optional result. -/
def getRes (o : Option AnalysisResult) : AnalysisResult := o.getD defaultResult

/-! ## Shared lemmas -/

theorem run_eq_some {rt jt : String} {ont : Ontology} {ov : Option String} {r : AnalysisResult}
    (h : (run_enhanced_ontological_analysis rt jt ont ov).1 = some r) :
    r = analysisCore rt jt ont ov := by
  unfold run_enhanced_ontological_analysis at h
  split at h
  · exact Option.noConfusion h
  · split at h
    · exact Option.noConfusion h
    · split at h
      · exact Option.noConfusion h
      · split at h
        · exact Option.noConfusion h
        · exact (Option.some.inj h).symm

theorem alookup_isSome_iff (k : String) (d : List (String × α)) :
    (alookup k d).isSome = true ↔ k ∈ d.map Prod.fst := by
  induction d with
  | nil => simp [alookup]
  | cons p rest ih =>
      by_cases hk : p.1 = k
      · simp [alookup, hk]
      · simp [alookup, hk, ih, Ne.symm hk]

theorem alookup_append_some {k : String} {d1 : List (String × α)} {v : α}
    (h : alookup k d1 = some v) (d2 : List (String × α)) :
    alookup k (d1 ++ d2) = some v := by
  induction d1 with
  | nil => exact Option.noConfusion h
  | cons p rest ih =>
      by_cases hk : p.1 = k
      · simpa [alookup, hk] using h
      · rw [alookup, if_neg hk] at h
        simpa [alookup, hk] using ih h

theorem alookup_append_none {k : String} {d1 : List (String × α)}
    (h : alookup k d1 = none) (d2 : List (String × α)) :
    alookup k (d1 ++ d2) = alookup k d2 := by
  induction d1 with
  | nil => rfl
  | cons p rest ih =>
      by_cases hk : p.1 = k
      · rw [alookup, if_pos hk] at h; exact Option.noConfusion h
      · rw [alookup, if_neg hk] at h
        simpa [alookup, hk] using ih h

theorem dictSet_values (d : List (String × ℚ)) (k : String) (v : ℚ) (P : ℚ → Prop)
    (h : ∀ p ∈ d, P p.2) (hv : P v) : ∀ p ∈ dictSet d k v, P p.2 := by
  intro p hp
  unfold dictSet at hp
  split at hp
  · obtain ⟨q, hq, hpq⟩ := List.mem_map.mp hp
    by_cases hk : q.1 = k
    · rw [if_pos hk] at hpq; rw [← hpq]; exact hv
    · rw [if_neg hk] at hpq; rw [← hpq]; exact h q hq
  · rcases List.mem_append.mp hp with h1 | h2
    · exact h p h1
    · rw [List.mem_singleton.mp h2]; exact hv

theorem roundTo1_bounds {q : ℚ} (h0 : 0 ≤ q) (h1 : q ≤ 100) :
    0 ≤ roundTo1 q ∧ roundTo1 q ≤ 100 := by
  have hu : (round (q * 10) : ℚ) ≤ q * 10 + 1 / 2 := round_le_add_half (q * 10)
  have hl : q * 10 - 1 / 2 < (round (q * 10) : ℚ) := sub_half_lt_round (q * 10)
  have hu2 : (round (q * 10) : ℚ) < 1001 := by linarith
  have hl2 : (-1 : ℚ) < (round (q * 10) : ℚ) := by linarith
  have hu3 : round (q * 10) < (1001 : ℤ) := by exact_mod_cast hu2
  have hl3 : (-1 : ℤ) < round (q * 10) := by exact_mod_cast hl2
  have hu4 : (round (q * 10) : ℚ) ≤ 1000 := by exact_mod_cast Int.lt_add_one_iff.mp hu3
  have hl4 : (0 : ℚ) ≤ (round (q * 10) : ℚ) := by exact_mod_cast hl3
  unfold roundTo1
  constructor <;> [positivity; linarith]

theorem list_sum_nonneg (l : List ℚ) (h : ∀ x ∈ l, 0 ≤ x) : 0 ≤ l.sum := by
  induction l with
  | nil => simp
  | cons a rest ih =>
      rw [List.sum_cons]
      exact add_nonneg (h a (List.mem_cons_self a rest))
        (ih fun x hx => h x (List.mem_cons_of_mem a hx))

theorem list_sum_le_mul (l : List ℚ) (c : ℚ) (h : ∀ x ∈ l, x ≤ c) :
    l.sum ≤ c * l.length := by
  induction l with
  | nil => simp
  | cons a rest ih =>
      rw [List.sum_cons, List.length_cons]
      have h1 : a ≤ c := h a (List.mem_cons_self a rest)
      have h2 : rest.sum ≤ c * rest.length := ih fun x hx => h x (List.mem_cons_of_mem a hx)
      push_cast
      linarith

theorem list_mul_le_sum (l : List ℚ) (c : ℚ) (h : ∀ x ∈ l, c ≤ x) :
    c * l.length ≤ l.sum := by
  induction l with
  | nil => simp
  | cons a rest ih =>
      rw [List.sum_cons, List.length_cons]
      have h1 : c ≤ a := h a (List.mem_cons_self a rest)
      have h2 : c * rest.length ≤ rest.sum := ih fun x hx => h x (List.mem_cons_of_mem a hx)
      push_cast
      linarith

theorem avg_bounds (l : List ℚ) (lo hi : ℚ) (h : ∀ x ∈ l, lo ≤ x ∧ x ≤ hi)
    (hne : l ≠ []) : lo ≤ l.sum / (l.length : ℚ) ∧ l.sum / (l.length : ℚ) ≤ hi := by
  have hpos : (0 : ℚ) < (l.length : ℚ) := by
    exact_mod_cast List.length_pos.mpr hne
  constructor
  · rw [le_div_iff₀ hpos]
    exact list_mul_le_sum l lo fun x hx => (h x hx).1
  · rw [div_le_iff₀ hpos]
    have := list_sum_le_mul l hi fun x hx => (h x hx).2
    linarith

theorem ratio100_bounds {m n : Nat} (hmn : m ≤ n) (hn : 0 < n) :
    0 ≤ ((m : ℚ) / (n : ℚ)) * 100 ∧ ((m : ℚ) / (n : ℚ)) * 100 ≤ 100 := by
  have hnq : (0 : ℚ) < (n : ℚ) := by exact_mod_cast hn
  have hr0 : (0 : ℚ) ≤ (m : ℚ) / (n : ℚ) := by positivity
  have hr1 : (m : ℚ) / (n : ℚ) ≤ 1 := by
    rw [div_le_one hnq]; exact_mod_cast hmn
  constructor <;> nlinarith

theorem cdr_gaps_mem {dkm : List (String × List String)} {jdw : Finset String} {rlow : String}
    {d : String} {gs : List String}
    (h : (d, gs) ∈ (computeDomainResults dkm jdw rlow).2) :
    ∃ dkl, (d, dkl) ∈ dkm ∧
      gapList rlow (domainJdList dkl jdw) ≠ [] ∧
      gs = rankGaps (gapList rlow (domainJdList dkl jdw)) := by
  induction dkm with
  | nil => simp [computeDomainResults] at h
  | cons p rest ih =>
      simp only [computeDomainResults] at h
      split at h
      · obtain ⟨dkl, hmem, hne, hgs⟩ := ih h
        exact ⟨dkl, List.mem_cons_of_mem p hmem, hne, hgs⟩
      · split at h
        · next hg =>
            obtain ⟨dkl, hmem, hne, hgs⟩ := ih h
            exact ⟨dkl, List.mem_cons_of_mem p hmem, hne, hgs⟩
        · next hg =>
            rcases List.mem_cons.mp h with heq | htail
            · have hd : d = p.1 := congrArg Prod.fst heq
              have hgs : gs = rankGaps (gapList rlow (domainJdList p.2 jdw)) :=
                congrArg Prod.snd heq
              refine ⟨p.2, ?_, ?_, hgs⟩
              · rw [hd]; exact List.mem_cons_self p rest
              · intro hnil
                rw [hnil] at hg
                exact hg rfl
            · obtain ⟨dkl, hmem, hne, hgs⟩ := ih htail
              exact ⟨dkl, List.mem_cons_of_mem p hmem, hne, hgs⟩

theorem rankGaps_length_le (gaps : List String) : (rankGaps gaps).length ≤ 20 := by
  rw [rankGaps, List.length_take]
  exact Nat.min_le_left _ _

theorem rankGaps_priority_first (gaps : List String) (i j : Nat)
    (hi : i < (rankGaps gaps).length) (hj : j < (rankGaps gaps).length)
    (hpi : hasPriority ((rankGaps gaps)[i]) = true)
    (hpj : hasPriority ((rankGaps gaps)[j]) = false) :
    i < j := by
  have hlen : (rankGaps gaps).length ≤
      (gaps.filter hasPriority ++ gaps.filter (fun g => !hasPriority g)).length := by
    rw [rankGaps, List.length_take]
    exact Nat.min_le_right _ _
  have hiL : i < (gaps.filter hasPriority ++ gaps.filter (fun g => !hasPriority g)).length :=
    lt_of_lt_of_le hi hlen
  have hjL : j < (gaps.filter hasPriority ++ gaps.filter (fun g => !hasPriority g)).length :=
    lt_of_lt_of_le hj hlen
  have hiL2 : i < (gaps.filter hasPriority).length +
      (gaps.filter (fun g => !hasPriority g)).length := by
    rw [← List.length_append]; exact hiL
  have hjL2 : j < (gaps.filter hasPriority).length +
      (gaps.filter (fun g => !hasPriority g)).length := by
    rw [← List.length_append]; exact hjL
  have hgi : (rankGaps gaps)[i] =
      (gaps.filter hasPriority ++ gaps.filter (fun g => !hasPriority g))[i] :=
    List.getElem_take _
  have hgj : (rankGaps gaps)[j] =
      (gaps.filter hasPriority ++ gaps.filter (fun g => !hasPriority g))[j] :=
    List.getElem_take _
  have hibp : i < (gaps.filter hasPriority).length := by
    by_contra hge
    push_neg at hge
    have heq2 : (gaps.filter hasPriority ++ gaps.filter (fun g => !hasPriority g))[i] =
        (gaps.filter (fun g => !hasPriority g))[i - (gaps.filter hasPriority).length] :=
      List.getElem_append_right hge
    have hmem : (gaps.filter hasPriority ++ gaps.filter (fun g => !hasPriority g))[i] ∈
        gaps.filter (fun g => !hasPriority g) := by
      rw [heq2]; exact List.getElem_mem _
    have hfp : (!hasPriority
        ((gaps.filter hasPriority ++ gaps.filter (fun g => !hasPriority g))[i])) = true :=
      (List.mem_filter.mp hmem).2
    rw [← hgi, hpi] at hfp
    exact Bool.noConfusion hfp
  have hjbp : ¬ j < (gaps.filter hasPriority).length := by
    intro hlt
    have heq2 : (gaps.filter hasPriority ++ gaps.filter (fun g => !hasPriority g))[j] =
        (gaps.filter hasPriority)[j] :=
      List.getElem_append_left hlt
    have hmem : (gaps.filter hasPriority ++ gaps.filter (fun g => !hasPriority g))[j] ∈
        gaps.filter hasPriority := by
      rw [heq2]; exact List.getElem_mem _
    have hfp : hasPriority
        ((gaps.filter hasPriority ++ gaps.filter (fun g => !hasPriority g))[j]) = true :=
      (List.mem_filter.mp hmem).2
    rw [← hgj, hpj] at hfp
    exact Bool.noConfusion hfp
  omega

theorem cdr_gap_keys_scored {dkm : List (String × List String)} {jdw : Finset String}
    {rlow : String} {d : String}
    (h : d ∈ (computeDomainResults dkm jdw rlow).2.map Prod.fst) :
    d ∈ (computeDomainResults dkm jdw rlow).1.map Prod.fst := by
  induction dkm with
  | nil => simp [computeDomainResults] at h
  | cons p rest ih =>
      simp only [computeDomainResults] at h ⊢
      by_cases hd : (domainJdList p.2 jdw).isEmpty
      · rw [if_pos hd] at h ⊢
        exact ih h
      · rw [if_neg hd] at h ⊢
        simp only [List.map_cons, List.mem_cons]
        by_cases hg : (gapList rlow (domainJdList p.2 jdw)).isEmpty
        · rw [if_pos hg] at h
          exact Or.inr (ih h)
        · rw [if_neg hg] at h
          simp only [List.map_cons, List.mem_cons] at h
          rcases h with h | h
          · exact Or.inl h
          · exact Or.inr (ih h)

/-! ## Field equations of the analysis result -/

theorem analysisCore_domain_scores (rt jt : String) (ont : Ontology) (ov : Option String) :
    (analysisCore rt jt ont ov).domain_scores =
      (computeDomainResults (domain_keyword_map (applyBusinessOverrides ont.SignalDomains))
        (clean_and_extract_words jt) (pyLower rt)).1 := by
  simp only [analysisCore]

theorem analysisCore_domain_gaps (rt jt : String) (ont : Ontology) (ov : Option String) :
    (analysisCore rt jt ont ov).domain_gaps =
      (computeDomainResults (domain_keyword_map (applyBusinessOverrides ont.SignalDomains))
        (clean_and_extract_words jt) (pyLower rt)).2 := by
  simp only [analysisCore]

theorem analysisCore_predicted (rt jt : String) (ont : Ontology) (ov : Option String) :
    (analysisCore rt jt ont ov).predicted_soc_group =
      (predictSoc ov jt (clean_and_extract_words jt) (clean_and_extract_words rt)
        (domain_keyword_map (applyBusinessOverrides ont.SignalDomains)) ont.SOC_Groups).1 := by
  simp only [analysisCore]

theorem analysisCore_soc_scores (rt jt : String) (ont : Ontology) (ov : Option String) :
    (analysisCore rt jt ont ov).soc_scores =
      fillMissing
        (predictSoc ov jt (clean_and_extract_words jt) (clean_and_extract_words rt)
          (domain_keyword_map (applyBusinessOverrides ont.SignalDomains)) ont.SOC_Groups).2
        (ont.SOC_Groups.map Prod.fst) := by
  simp only [analysisCore]

theorem analysisCore_overall (rt jt : String) (ont : Ontology) (ov : Option String) :
    (analysisCore rt jt ont ov).overall_score =
      roundTo1 (overallScore
        (allJdKeywords (domain_keyword_map (applyBusinessOverrides ont.SignalDomains))
          (clean_and_extract_words jt)) (pyLower rt) (pyLower jt)) := by
  simp only [analysisCore]

/-! ## Concrete inputs for witnesses and counterexamples -/

/-- Empty ontology (no domains before the overrides, no occupation groups). -/
def wOnt : Ontology := ⟨[], []⟩

/-- A resume text matching nothing of interest. -/
def wResume : String := "zzzz"

/-- A job description triggering no domain and no indicator. -/
def wJdPlain : String := "aaa bbb"

/-- A job description producing gapped domains but no strong indicators. -/
def wJdGaps : String := "agile planning"

/-- A job description producing one priority and one non-priority gap. -/
def wJdMixed : String := "agile waterfall"

/-- A job description with 3 IT indicators and 2 management indicators. -/
def wJdStrong : String := "agile scrum technical leadership planning"

/-- Ontology whose `SignalDomains` has one custom entry (used for the
ontology-mutation theorem). -/
def c2Ont : Ontology := ⟨[("D", ["xyz"])], []⟩

/-! ## Claim theorems -/

/-- Claim C9: if the job-description text is empty, or normalizing it yields
an empty word/phrase set, the analysis declines and emits no result at all. -/
theorem C9_empty_jd_declines (rt jt : String) (ont : Ontology) (ov : Option String)
    (h : jt.isEmpty = true ∨ clean_and_extract_words jt = ∅) :
    (run_enhanced_ontological_analysis rt jt ont ov).1 = none := by
  unfold run_enhanced_ontological_analysis
  split_ifs with h1 h2 h3 h4 <;> try rfl
  rcases h with h | h
  · exact absurd h h2
  · exact absurd h h4

/-- Witness for C9 at a concrete input: the empty job description. -/
theorem C9_witness :
    ("" : String).isEmpty = true ∧
      (run_enhanced_ontological_analysis wResume "" wOnt none).1 = none :=
  ⟨rfl, C9_empty_jd_declines wResume "" wOnt none (Or.inl rfl)⟩

/-- Claim C8: every returned per-domain gap list has at most 20 entries. -/
theorem C8_gap_cap (rt jt : String) (ont : Ontology) (ov : Option String)
    (r : AnalysisResult) (h : (run_enhanced_ontological_analysis rt jt ont ov).1 = some r)
    (p : String × List String) (hp : p ∈ r.domain_gaps) : p.2.length ≤ 20 := by
  have hr := run_eq_some h
  subst hr
  rw [analysisCore_domain_gaps] at hp
  obtain ⟨pd, pg⟩ := p
  obtain ⟨dkl, _, _, hgs⟩ := cdr_gaps_mem hp
  rw [show pg = _ from hgs]
  exact rankGaps_length_le _

/-- Witness for C8: a concrete run whose gap list for the domain
`Systems & Structure` is produced and bounded. -/
theorem C8_witness :
    (("Systems & Structure", ["agile"]) : String × List String).2.length ≤ 20 :=
  C8_gap_cap wResume wJdGaps wOnt none
    (getRes (run_enhanced_ontological_analysis wResume wJdGaps wOnt none).1) rfl
    ("Systems & Structure", ["agile"]) (by decide)

/-- Claim C10: every domain appearing as a key of `domain_gaps` also appears
as a key of `domain_scores`. -/
theorem C10_gapped_domains_scored (rt jt : String) (ont : Ontology) (ov : Option String)
    (r : AnalysisResult) (h : (run_enhanced_ontological_analysis rt jt ont ov).1 = some r)
    (d : String) (hd : d ∈ r.domain_gaps.map Prod.fst) :
    d ∈ r.domain_scores.map Prod.fst := by
  have hr := run_eq_some h
  subst hr
  rw [analysisCore_domain_gaps] at hd
  rw [analysisCore_domain_scores]
  exact cdr_gap_keys_scored hd

/-- Witness for C10 at a concrete run with a gapped domain. -/
theorem C10_witness :
    "Systems & Structure" ∈
      (getRes (run_enhanced_ontological_analysis wResume wJdGaps wOnt none).1).domain_scores.map
        Prod.fst :=
  C10_gapped_domains_scored wResume wJdGaps wOnt none
    (getRes (run_enhanced_ontological_analysis wResume wJdGaps wOnt none).1) rfl
    "Systems & Structure" (by decide)

/-- Claim C7: within every returned gap list, every gap containing one of the
high-priority business substrings appears earlier than every gap containing
none of them. -/
theorem C7_priority_gaps_first (rt jt : String) (ont : Ontology) (ov : Option String)
    (r : AnalysisResult) (h : (run_enhanced_ontological_analysis rt jt ont ov).1 = some r)
    (p : String × List String) (hp : p ∈ r.domain_gaps) (i j : Nat)
    (hi : i < p.2.length) (hj : j < p.2.length)
    (hpi : hasPriority (p.2[i]) = true) (hpj : hasPriority (p.2[j]) = false) :
    i < j := by
  have hr := run_eq_some h
  subst hr
  rw [analysisCore_domain_gaps] at hp
  obtain ⟨pd, pg⟩ := p
  obtain ⟨dkl, _, _, hgs⟩ := cdr_gaps_mem hp
  subst hgs
  exact rankGaps_priority_first _ i j hi hj hpi hpj

/-- Witness for C7: concrete run where the gap list of `Systems & Structure`
is `["agile", "waterfall"]` (priority gap first, non-priority gap second). -/
theorem C7_witness : (0 : Nat) < 1 :=
  C7_priority_gaps_first wResume wJdMixed wOnt none
    (getRes (run_enhanced_ontological_analysis wResume wJdMixed wOnt none).1) rfl
    ("Systems & Structure", ["agile", "waterfall"]) (by decide) 0 1
    (by decide) (by decide) (by decide) (by decide)

/-- Claim C2 (refuted, code bug): running the analysis does not leave the
input ontology unchanged.  `ontology.copy()` is a shallow copy, so the
business-term overrides are written through the shared `SignalDomains` dict
of the loaded ontology; after a successful run the `SignalDomains` mapping
differs from the one passed in, while a result is still produced. -/
theorem C2_ontology_mutated :
    (run_enhanced_ontological_analysis wResume wJdPlain c2Ont none).2.SignalDomains ≠
      c2Ont.SignalDomains ∧
    ((run_enhanced_ontological_analysis wResume wJdPlain c2Ont none).1).isSome = true := by
  decide

/-! ## C3: empty occupation-group map -/

theorem overrideActive_nil (ov : Option String) : overrideActive ov [] = false := by
  cases ov with
  | none => rfl
  | some s =>
      show (if s = "" then false
        else if s = "Auto Detect" then false
        else (alookup s ([] : List (String × SocGroup))).isSome) = false
      split_ifs <;> rfl

theorem predictSoc_empty_groups (ov : Option String) (jt : String) (jdw resw : Finset String)
    (dkm : List (String × List String)) (hit : itScore jt < 2) (hmg : mgmtScore jt < 2) :
    predictSoc ov jt jdw resw dkm [] = (none, []) := by
  unfold predictSoc
  rw [overrideActive_nil]
  rw [if_neg (by simp)]
  rw [if_neg (by omega), if_neg (by omega), if_neg (by omega)]
  rfl

/-- Claim C3 (amended): with no occupation groups in the ontology and a job
description matching fewer than 2 IT indicators and fewer than 2 management
indicators — so that no strong-indicator branch fires — the predictor
returns a null group and an empty score map.  (When the thresholds are met
the hard-coded branches fire even with no groups; see the counterexample.) -/
theorem C3_no_groups_null (rt jt : String) (ont : Ontology) (ov : Option String)
    (r : AnalysisResult) (hsoc : ont.SOC_Groups = [])
    (hit : itScore jt < 2) (hmg : mgmtScore jt < 2)
    (h : (run_enhanced_ontological_analysis rt jt ont ov).1 = some r) :
    r.predicted_soc_group = none ∧ r.soc_scores = [] := by
  have hr := run_eq_some h
  subst hr
  constructor
  · rw [analysisCore_predicted, hsoc, predictSoc_empty_groups _ _ _ _ _ hit hmg]
  · rw [analysisCore_soc_scores, hsoc, predictSoc_empty_groups _ _ _ _ _ hit hmg]
    rfl

/-- Counterexample to claim C3 as stated: with an empty occupation-group map
but a job description meeting the strong indicator thresholds, the analysis
returns the generic Management category and the five-entry hand-authored
score table instead of a null group and an empty map. -/
theorem C3_counterexample :
    wOnt.SOC_Groups = [] ∧
    (getRes (run_enhanced_ontological_analysis wResume wJdStrong wOnt none).1).predicted_soc_group =
        some "Management Occupations" ∧
      (getRes (run_enhanced_ontological_analysis wResume wJdStrong wOnt none).1).soc_scores.map
          Prod.fst =
        ["Management Occupations", "Computer and Mathematical Occupations",
         "AI, Data & UX Leadership Occupations",
         "Life, Physical, and Social Science Occupations",
         "Education, Training, and Library Occupations"] := by
  decide

/-- Witness for the amended C3 at a concrete input. -/
theorem C3_witness :
    (wOnt.SOC_Groups = [] ∧ itScore wJdPlain < 2 ∧ mgmtScore wJdPlain < 2) ∧
      (getRes (run_enhanced_ontological_analysis wResume wJdPlain wOnt none).1).predicted_soc_group =
          none ∧
        (getRes (run_enhanced_ontological_analysis wResume wJdPlain wOnt none).1).soc_scores = [] :=
  ⟨⟨rfl, by decide, by decide⟩,
    C3_no_groups_null wResume wJdPlain wOnt none _ rfl (by decide) (by decide) rfl⟩

/-! ## C6: manual override -/

theorem dictSet_fresh {k : String} {d : List (String × α)} (v : α)
    (h : alookup k d = none) : dictSet d k v = d ++ [(k, v)] := by
  unfold dictSet
  rw [h]
  rfl

theorem overrideFold_eq (s : String) :
    ∀ (socs : List (String × SocGroup)) (acc : List (String × ℚ)),
      (socs.map Prod.fst).Nodup → (∀ p ∈ socs, alookup p.1 acc = none) →
      socs.foldl (fun a p => dictSet a p.1 (if p.1 = s then (100 : ℚ) else 0)) acc =
        acc ++ socs.map (fun p => (p.1, if p.1 = s then (100 : ℚ) else 0))
  | [], acc, _, _ => by simp
  | q :: rest, acc, hnd, hfresh => by
      rw [List.foldl_cons]
      rw [dictSet_fresh (if q.1 = s then (100 : ℚ) else 0)
        (hfresh q (List.mem_cons_self q rest))]
      rw [List.map_cons] at hnd
      have hq1 : q.1 ∉ rest.map Prod.fst := (List.nodup_cons.mp hnd).1
      have hfresh2 : ∀ p ∈ rest,
          alookup p.1 (acc ++ [(q.1, if q.1 = s then (100 : ℚ) else 0)]) = none := by
        intro p hp
        rw [alookup_append_none (hfresh p (List.mem_cons_of_mem q hp)) _]
        have hne : q.1 ≠ p.1 := by
          intro hEq
          exact hq1 (by rw [hEq]; exact List.mem_map_of_mem Prod.fst hp)
        simp [alookup, hne]
      rw [overrideFold_eq s rest (acc ++ [(q.1, if q.1 = s then (100 : ℚ) else 0)])
        (List.nodup_cons.mp hnd).2 hfresh2]
      simp

theorem fillMissing_covered :
    ∀ (keys : List String) (scores : List (String × ℚ)),
      (∀ k ∈ keys, (alookup k scores).isSome = true) →
      fillMissing scores keys = scores
  | [], _, _ => rfl
  | k :: ks, scores, hcov => by
      unfold fillMissing
      rw [List.foldl_cons]
      rw [if_pos (hcov k (List.mem_cons_self k ks))]
      exact fillMissing_covered ks scores (fun g hg => hcov g (List.mem_cons_of_mem k hg))

/-- Claim C6 (amended): a caller-supplied override that is a key of the
occupation-group map and is neither empty nor the literal sentinel
"Auto Detect" selects that group as the prediction with score 100 and scores
every other group 0, regardless of the document texts. -/
theorem C6_valid_override (rt jt : String) (ont : Ontology) (s : String)
    (r : AnalysisResult) (hs1 : ¬ s = "") (hs2 : ¬ s = "Auto Detect")
    (hs3 : s ∈ ont.SOC_Groups.map Prod.fst)
    (hnd : (ont.SOC_Groups.map Prod.fst).Nodup)
    (h : (run_enhanced_ontological_analysis rt jt ont (some s)).1 = some r) :
    r.predicted_soc_group = some s ∧
      r.soc_scores = ont.SOC_Groups.map (fun p => (p.1, if p.1 = s then (100 : ℚ) else 0)) := by
  have hr := run_eq_some h
  subst hr
  have hact : overrideActive (some s) ont.SOC_Groups = true := by
    show (if s = "" then false
      else if s = "Auto Detect" then false
      else (alookup s ont.SOC_Groups).isSome) = true
    rw [if_neg hs1, if_neg hs2]
    exact (alookup_isSome_iff s ont.SOC_Groups).mpr hs3
  constructor
  · rw [analysisCore_predicted]
    unfold predictSoc
    rw [if_pos hact]
    rfl
  · rw [analysisCore_soc_scores]
    unfold predictSoc
    rw [if_pos hact]
    show fillMissing
        (ont.SOC_Groups.foldl (fun acc p => dictSet acc p.1 (if p.1 = s then (100 : ℚ) else 0)) [])
        (ont.SOC_Groups.map Prod.fst) = _
    rw [overrideFold_eq s ont.SOC_Groups [] hnd (fun p _ => rfl)]
    rw [List.nil_append]
    apply fillMissing_covered
    intro k hk
    rw [alookup_isSome_iff]
    rw [List.map_map]
    exact hk

/-- Ontology used by the C6 witness: one valid occupation group. -/
def wOntGrp : Ontology := ⟨[], [("Grp", ⟨[], []⟩)]⟩

/-- Witness for the amended C6 at a concrete input. -/
theorem C6_witness :
    (¬ ("Grp" : String) = "" ∧ "Grp" ∈ wOntGrp.SOC_Groups.map Prod.fst) ∧
      (getRes (run_enhanced_ontological_analysis wResume wJdPlain wOntGrp
          (some "Grp")).1).predicted_soc_group = some "Grp" ∧
        (getRes (run_enhanced_ontological_analysis wResume wJdPlain wOntGrp
            (some "Grp")).1).soc_scores =
          wOntGrp.SOC_Groups.map (fun p => (p.1, if p.1 = "Grp" then (100 : ℚ) else 0)) :=
  ⟨⟨by decide, by decide⟩,
    C6_valid_override wResume wJdPlain wOntGrp "Grp" _ (by decide) (by decide) (by decide)
      (by decide) rfl⟩

/-- Ontology containing an occupation group literally named "Auto Detect". -/
def adOnt : Ontology := ⟨[], [("Zed", ⟨[], []⟩), ("Auto Detect", ⟨[], []⟩)]⟩

/-- Counterexample to claim C6 as stated: "Auto Detect" is a key of the
occupation-group map and is supplied as the override, yet the predictor
does not select it — the code treats the value "Auto Detect" as the
no-override sentinel and falls through to automatic detection. -/
theorem C6_counterexample :
    "Auto Detect" ∈ adOnt.SOC_Groups.map Prod.fst ∧
      (getRes (run_enhanced_ontological_analysis wResume wJdPlain adOnt
          (some "Auto Detect")).1).predicted_soc_group ≠ some "Auto Detect" := by
  decide

/-! ## C5: strong IT+management indicator branch -/

theorem fillMissing_eq :
    ∀ (keys : List String) (scores : List (String × ℚ)), keys.Nodup →
      fillMissing scores keys =
        scores ++
          (keys.filter (fun g => !(alookup g scores).isSome)).map (fun g => (g, (0 : ℚ)))
  | [], scores, _ => by simp [fillMissing]
  | k :: ks, scores, hnd => by
      unfold fillMissing
      rw [List.foldl_cons]
      by_cases hk : (alookup k scores).isSome = true
      · rw [if_pos hk]
        have htail := fillMissing_eq ks scores (List.nodup_cons.mp hnd).2
        unfold fillMissing at htail
        rw [htail]
        have hbool : (!(alookup k scores).isSome) = false := by rw [hk]; rfl
        rw [List.filter_cons, hbool]
        simp
      · rw [if_neg hk]
        have hknotin : k ∉ ks := (List.nodup_cons.mp hnd).1
        have htail2 := fillMissing_eq ks (scores ++ [(k, (0 : ℚ))]) (List.nodup_cons.mp hnd).2
        unfold fillMissing at htail2
        rw [htail2]
        have hfeq : ks.filter (fun g => !(alookup g (scores ++ [(k, (0 : ℚ))])).isSome) =
            ks.filter (fun g => !(alookup g scores).isSome) := by
          apply List.filter_congr
          intro g hg
          have hne : k ≠ g := fun hEq => hknotin (hEq ▸ hg)
          cases hcase : alookup g scores with
          | some v =>
              have h1 : alookup g (scores ++ [(k, (0 : ℚ))]) = some v :=
                alookup_append_some hcase _
              simp [h1, hcase]
          | none =>
              have h1 : alookup g (scores ++ [(k, (0 : ℚ))]) = alookup g [(k, (0 : ℚ))] :=
                alookup_append_none hcase _
              have h2 : alookup g [(k, (0 : ℚ))] = none := by
                simp [alookup, hne]
              simp [h1, h2, hcase]
        rw [hfeq]
        have hbool : (!(alookup k scores).isSome) = true := by
          cases hval : (alookup k scores).isSome with
          | false => rfl
          | true => exact absurd hval hk
        rw [List.filter_cons, hbool]
        simp

/-- Claim C5: with no active manual override and a job description meeting
the strong indicator thresholds (at least 3 IT indicators and at least 2
management indicators as substrings), the predictor selects "Management
Occupations", stores 85 for it, assigns the fixed hand-authored table, and
only fills the remaining known groups with 0 — fallback domain-coverage
scoring never runs. -/
theorem C5_strong_indicator_branch (rt jt : String) (ont : Ontology) (ov : Option String)
    (r : AnalysisResult)
    (hov : overrideActive ov ont.SOC_Groups = false)
    (hit : 3 ≤ itScore jt) (hmg : 2 ≤ mgmtScore jt)
    (hnd : (ont.SOC_Groups.map Prod.fst).Nodup)
    (h : (run_enhanced_ontological_analysis rt jt ont ov).1 = some r) :
    r.predicted_soc_group = some "Management Occupations" ∧
      alookup "Management Occupations" r.soc_scores = some 85 ∧
      r.soc_scores = strongItMgmtTable ++
        ((ont.SOC_Groups.map Prod.fst).filter
          (fun g => !(alookup g strongItMgmtTable).isSome)).map (fun g => (g, (0 : ℚ))) := by
  have hr := run_eq_some h
  subst hr
  have hps : predictSoc ov jt (clean_and_extract_words jt) (clean_and_extract_words rt)
      (domain_keyword_map (applyBusinessOverrides ont.SignalDomains)) ont.SOC_Groups =
      (some "Management Occupations", strongItMgmtTable) := by
    unfold predictSoc
    rw [hov]
    rw [if_neg (by simp)]
    rw [if_pos ⟨hit, hmg⟩]
  refine ⟨?_, ?_, ?_⟩
  · rw [analysisCore_predicted, hps]
  · rw [analysisCore_soc_scores, hps, fillMissing_eq _ _ hnd]
    exact alookup_append_some
      (show alookup "Management Occupations" strongItMgmtTable = some 85 from rfl) _
  · rw [analysisCore_soc_scores, hps, fillMissing_eq _ _ hnd]

/-- Witness for C5 at a concrete strong-indicator input. -/
theorem C5_witness :
    (overrideActive none wOnt.SOC_Groups = false ∧ 3 ≤ itScore wJdStrong ∧
        2 ≤ mgmtScore wJdStrong) ∧
      (getRes (run_enhanced_ontological_analysis wResume wJdStrong wOnt
          none).1).predicted_soc_group = some "Management Occupations" ∧
        alookup "Management Occupations"
            (getRes (run_enhanced_ontological_analysis wResume wJdStrong wOnt
              none).1).soc_scores = some 85 ∧
        (getRes (run_enhanced_ontological_analysis wResume wJdStrong wOnt
            none).1).soc_scores = strongItMgmtTable ++
          ((wOnt.SOC_Groups.map Prod.fst).filter
            (fun g => !(alookup g strongItMgmtTable).isSome)).map (fun g => (g, (0 : ℚ))) :=
  ⟨⟨rfl, by decide, by decide⟩,
    C5_strong_indicator_branch wResume wJdStrong wOnt none _ rfl (by decide) (by decide)
      (by decide) rfl⟩

/-! ## C1: matched/gap partition per domain -/

theorem dkm_keys (sd : List (String × List String)) :
    (domain_keyword_map sd).map Prod.fst = sd.map Prod.fst := by
  unfold domain_keyword_map
  rw [List.map_map]
  rfl

theorem cdr_scores_keys_sub :
    ∀ (dkm : List (String × List String)) (jdw : Finset String) (rlow : String) (d : String),
      d ∈ (computeDomainResults dkm jdw rlow).1.map Prod.fst → d ∈ dkm.map Prod.fst
  | [], _, _, _, h => by simp [computeDomainResults] at h
  | p :: rest, jdw, rlow, d, h => by
      simp only [computeDomainResults] at h
      rw [List.map_cons, List.mem_cons]
      split at h
      · exact Or.inr (cdr_scores_keys_sub rest jdw rlow d h)
      · rw [List.map_cons, List.mem_cons] at h
        rcases h with h | h
        · exact Or.inl h
        · exact Or.inr (cdr_scores_keys_sub rest jdw rlow d h)

theorem cdr_gaps_keys_sub :
    ∀ (dkm : List (String × List String)) (jdw : Finset String) (rlow : String) (d : String),
      d ∈ (computeDomainResults dkm jdw rlow).2.map Prod.fst → d ∈ dkm.map Prod.fst
  | [], _, _, _, h => by simp [computeDomainResults] at h
  | p :: rest, jdw, rlow, d, h => by
      simp only [computeDomainResults] at h
      rw [List.map_cons, List.mem_cons]
      split at h
      · exact Or.inr (cdr_gaps_keys_sub rest jdw rlow d h)
      · split at h
        · exact Or.inr (cdr_gaps_keys_sub rest jdw rlow d h)
        · rw [List.map_cons, List.mem_cons] at h
          rcases h with h | h
          · exact Or.inl h
          · exact Or.inr (cdr_gaps_keys_sub rest jdw rlow d h)

theorem cdr_lookup_char :
    ∀ (dkm : List (String × List String)) (jdw : Finset String) (rlow : String) (d : String),
      (dkm.map Prod.fst).Nodup →
      (alookup d (computeDomainResults dkm jdw rlow).1).isSome = true →
      ∃ dkl, alookup d dkm = some dkl ∧
        (domainJdList dkl jdw).isEmpty = false ∧
        alookup d (computeDomainResults dkm jdw rlow).2 =
          (if (gapList rlow (domainJdList dkl jdw)).isEmpty then none
           else some (rankGaps (gapList rlow (domainJdList dkl jdw))))
  | [], _, _, _, _, hs => by simp [computeDomainResults, alookup] at hs
  | p :: rest, jdw, rlow, d, hnd, hs => by
      rw [List.map_cons] at hnd
      obtain ⟨hp1, hnd2⟩ := List.nodup_cons.mp hnd
      simp only [computeDomainResults] at hs ⊢
      by_cases hdjk : (domainJdList p.2 jdw).isEmpty
      · rw [if_pos hdjk] at hs ⊢
        obtain ⟨dkl, h1, h2, h3⟩ := cdr_lookup_char rest jdw rlow d hnd2 hs
        have hdin : d ∈ rest.map Prod.fst := by
          rw [← alookup_isSome_iff, h1]
          rfl
        have hpd : ¬ p.1 = d := fun hEq => hp1 (hEq ▸ hdin)
        refine ⟨dkl, ?_, h2, h3⟩
        simp only [alookup]
        rw [if_neg hpd]
        exact h1
      · rw [if_neg hdjk] at hs ⊢
        by_cases hpd : p.1 = d
        · refine ⟨p.2, ?_, by simpa using hdjk, ?_⟩
          · simp only [alookup]
            rw [if_pos hpd]
          · by_cases hg : (gapList rlow (domainJdList p.2 jdw)).isEmpty
            · rw [if_pos hg, if_pos hg]
              have hnot : ¬ (alookup d (computeDomainResults rest jdw rlow).2).isSome = true := by
                intro hsome
                exact hp1 (hpd ▸ cdr_gaps_keys_sub rest jdw rlow d
                  ((alookup_isSome_iff d _).mp hsome))
              cases hval : alookup d (computeDomainResults rest jdw rlow).2 with
              | none => rfl
              | some x => rw [hval] at hnot; exact absurd rfl hnot
            · rw [if_neg hg, if_neg hg]
              simp only [alookup]
              rw [if_pos hpd]
        · have hs2 : (alookup d (computeDomainResults rest jdw rlow).1).isSome = true := by
            simp only [alookup] at hs
            rwa [if_neg hpd] at hs
          obtain ⟨dkl, h1, h2, h3⟩ := cdr_lookup_char rest jdw rlow d hnd2 hs2
          refine ⟨dkl, ?_, h2, ?_⟩
          · simp only [alookup]
            rw [if_neg hpd]
            exact h1
          · by_cases hg : (gapList rlow (domainJdList p.2 jdw)).isEmpty
            · rw [if_pos hg]
              exact h3
            · rw [if_neg hg]
              simp only [alookup]
              rw [if_neg hpd]
              exact h3

theorem rankGaps_subset (gaps : List String) : ∀ x ∈ rankGaps gaps, x ∈ gaps := by
  intro x hx
  unfold rankGaps at hx
  have hx2 := List.mem_of_mem_take hx
  rcases List.mem_append.mp hx2 with h | h
  · exact (List.mem_filter.mp h).1
  · exact (List.mem_filter.mp h).1

theorem filter_length_partition (p : String → Bool) (l : List String) :
    (l.filter p).length + (l.filter (fun a => !p a)).length = l.length := by
  induction l with
  | nil => rfl
  | cons a rest ih =>
      by_cases ha : p a = true
      · have hna : (!p a) = false := by rw [ha]; rfl
        rw [List.filter_cons, List.filter_cons, if_pos ha, hna]
        simp only [List.length_cons, Bool.false_eq_true, if_false]
        omega
      · have ha2 : p a = false := by
          cases hval : p a with
          | false => rfl
          | true => exact absurd hval ha
        have hna : (!p a) = true := by rw [ha2]; rfl
        rw [List.filter_cons, List.filter_cons, hna, ha2]
        simp only [List.length_cons, Bool.false_eq_true, if_false, if_true]
        omega

theorem gapList_nil_matched {rlow : String} {djk : List String}
    (h : (gapList rlow djk).isEmpty = true) : matchedList rlow djk = djk := by
  unfold gapList at h
  rw [List.isEmpty_iff] at h
  unfold matchedList
  rw [List.filter_eq_self]
  intro a ha
  have := List.filter_eq_nil_iff.mp h a ha
  cases hval : strContains rlow (pyLower a) with
  | true => rfl
  | false => exact absurd (by rw [hval]; rfl) this

/-- Claim C1 (amended): for every domain with a recorded score, the
substring-matched keyword set and the returned gap list (as a set, absent
entry meaning empty) are disjoint; and provided the domain has at most 20
unmatched keywords, their union is exactly the domain's JD-intersected
keyword set.  (The returned gap list is the 20-entry truncation of the
unmatched keywords, so with more than 20 unmatched keywords the union is a
strict subset — see the counterexample.) -/
theorem C1_partition (rt jt : String) (ont : Ontology) (ov : Option String)
    (r : AnalysisResult) (d : String) (dkl : List String)
    (hnd : ((applyBusinessOverrides ont.SignalDomains).map Prod.fst).Nodup)
    (h : (run_enhanced_ontological_analysis rt jt ont ov).1 = some r)
    (hs : (alookup d r.domain_scores).isSome = true)
    (hdkl : alookup d (domain_keyword_map (applyBusinessOverrides ont.SignalDomains)) =
      some dkl) :
    (matchedList (pyLower rt) (domainJdList dkl (clean_and_extract_words jt))).toFinset ∩
        ((alookup d r.domain_gaps).getD []).toFinset = ∅ ∧
      ((gapList (pyLower rt) (domainJdList dkl (clean_and_extract_words jt))).length ≤ 20 →
        (matchedList (pyLower rt) (domainJdList dkl (clean_and_extract_words jt))).toFinset ∪
            ((alookup d r.domain_gaps).getD []).toFinset =
          (domainJdList dkl (clean_and_extract_words jt)).toFinset) := by
  have hr := run_eq_some h
  subst hr
  rw [analysisCore_domain_scores] at hs
  have hndk : ((domain_keyword_map (applyBusinessOverrides ont.SignalDomains)).map
      Prod.fst).Nodup := by
    rw [dkm_keys]
    exact hnd
  obtain ⟨dkl2, hdkl2, hdjkne, hgaps⟩ :=
    cdr_lookup_char (domain_keyword_map (applyBusinessOverrides ont.SignalDomains))
      (clean_and_extract_words jt) (pyLower rt) d hndk hs
  rw [hdkl] at hdkl2
  obtain rfl : dkl = dkl2 := Option.some.inj hdkl2
  rw [analysisCore_domain_gaps, hgaps]
  by_cases hg : (gapList (pyLower rt) (domainJdList dkl (clean_and_extract_words jt))).isEmpty
  · rw [if_pos hg]
    have hmm := gapList_nil_matched hg
    constructor
    · simp
    · intro _
      rw [hmm]
      simp
  · rw [if_neg hg]
    simp only [Option.getD_some]
    constructor
    · rw [Finset.eq_empty_iff_forall_not_mem]
      intro x hx
      obtain ⟨hx1, hx2⟩ := Finset.mem_inter.mp hx
      have hxm := List.mem_toFinset.mp hx1
      have hxg := rankGaps_subset _ _ (List.mem_toFinset.mp hx2)
      have hP := (List.mem_filter.mp hxm).2
      have hnP := (List.mem_filter.mp hxg).2
      rw [hP] at hnP
      exact Bool.noConfusion hnP
    · intro hlen
      have htake : rankGaps (gapList (pyLower rt)
          (domainJdList dkl (clean_and_extract_words jt))) =
          (gapList (pyLower rt) (domainJdList dkl (clean_and_extract_words jt))).filter
              hasPriority ++
            (gapList (pyLower rt) (domainJdList dkl (clean_and_extract_words jt))).filter
              (fun g => !hasPriority g) := by
        unfold rankGaps
        apply List.take_of_length_le
        rw [List.length_append, filter_length_partition]
        exact hlen
      rw [htake]
      rw [List.toFinset_append]
      have hparts : ((gapList (pyLower rt)
            (domainJdList dkl (clean_and_extract_words jt))).filter hasPriority).toFinset ∪
          ((gapList (pyLower rt) (domainJdList dkl (clean_and_extract_words jt))).filter
            (fun g => !hasPriority g)).toFinset =
          (gapList (pyLower rt) (domainJdList dkl (clean_and_extract_words jt))).toFinset := by
        rw [List.toFinset_filter, List.toFinset_filter]
        have hcong : Finset.filter (fun x => (!hasPriority x) = true)
            (gapList (pyLower rt) (domainJdList dkl (clean_and_extract_words jt))).toFinset =
            Finset.filter (fun x => ¬ hasPriority x = true)
              (gapList (pyLower rt) (domainJdList dkl (clean_and_extract_words jt))).toFinset := by
          apply Finset.filter_congr
          intro x _
          cases hval : hasPriority x with
          | false => simp [hval]
          | true => simp [hval]
        rw [hcong]
        exact Finset.filter_union_filter_neg_eq _ _
      rw [hparts]
      unfold matchedList gapList
      rw [List.toFinset_filter, List.toFinset_filter]
      have hcong2 : Finset.filter (fun x => (!strContains (pyLower rt) (pyLower x)) = true)
          (domainJdList dkl (clean_and_extract_words jt)).toFinset =
          Finset.filter (fun x => ¬ strContains (pyLower rt) (pyLower x) = true)
            (domainJdList dkl (clean_and_extract_words jt)).toFinset := by
        apply Finset.filter_congr
        intro x _
        cases hval : strContains (pyLower rt) (pyLower x) with
        | false => simp [hval]
        | true => simp [hval]
      rw [hcong2]
      exact Finset.filter_union_filter_neg_eq _ _

/-- 21 pairwise-distinct three-letter keywords for the truncation
counterexample. -/
def c1Kws : List String :=
  ["kaa", "kba", "kca", "kda", "kea", "kfa", "kga", "kha", "kia", "kja", "kka",
   "kla", "kma", "kna", "koa", "kpa", "kqa", "kra", "ksa", "kta", "kua"]

/-- Ontology with a single custom domain holding the 21 keywords. -/
def c1Ont : Ontology := ⟨[("D", c1Kws)], []⟩

/-- Job description containing all 21 keywords of domain "D". -/
def c1Jd : String :=
  "kaa kba kca kda kea kfa kga kha kia kja kka kla kma kna koa kpa kqa kra ksa kta kua"

/-- Counterexample to claim C1 as stated: domain "D" has 21 JD-intersected
keywords, the resume matches none of them, and the returned gap list is
capped at 20 entries, so the union of the matched set and the returned gap
set is a strict subset of the domain's JD-intersected keyword set. -/
theorem C1_counterexample :
    (alookup "D" (getRes (run_enhanced_ontological_analysis wResume c1Jd c1Ont
        none).1).domain_scores).isSome = true ∧
      (matchedList (pyLower wResume)
            (domainJdList
              ((alookup "D"
                (domain_keyword_map (applyBusinessOverrides c1Ont.SignalDomains))).getD [])
              (clean_and_extract_words c1Jd))).toFinset ∪
          ((alookup "D" (getRes (run_enhanced_ontological_analysis wResume c1Jd c1Ont
              none).1).domain_gaps).getD []).toFinset ≠
        (domainJdList
          ((alookup "D"
            (domain_keyword_map (applyBusinessOverrides c1Ont.SignalDomains))).getD [])
          (clean_and_extract_words c1Jd)).toFinset := by
  decide

/-- Witness for the amended C1 at a concrete run with one unmatched keyword. -/
theorem C1_witness :
    ((applyBusinessOverrides wOnt.SignalDomains).map Prod.fst).Nodup ∧
      (matchedList (pyLower wResume)
            (domainJdList
              ((alookup "Systems & Structure"
                (domain_keyword_map (applyBusinessOverrides wOnt.SignalDomains))).getD [])
              (clean_and_extract_words wJdGaps))).toFinset ∩
          ((alookup "Systems & Structure"
              (getRes (run_enhanced_ontological_analysis wResume wJdGaps wOnt
                none).1).domain_gaps).getD []).toFinset = ∅ ∧
        ((gapList (pyLower wResume)
              (domainJdList
                ((alookup "Systems & Structure"
                  (domain_keyword_map (applyBusinessOverrides wOnt.SignalDomains))).getD [])
                (clean_and_extract_words wJdGaps))).length ≤ 20 →
          (matchedList (pyLower wResume)
                (domainJdList
                  ((alookup "Systems & Structure"
                    (domain_keyword_map (applyBusinessOverrides wOnt.SignalDomains))).getD [])
                  (clean_and_extract_words wJdGaps))).toFinset ∪
              ((alookup "Systems & Structure"
                  (getRes (run_enhanced_ontological_analysis wResume wJdGaps wOnt
                    none).1).domain_gaps).getD []).toFinset =
            (domainJdList
              ((alookup "Systems & Structure"
                (domain_keyword_map (applyBusinessOverrides wOnt.SignalDomains))).getD [])
              (clean_and_extract_words wJdGaps)).toFinset) :=
  ⟨by decide,
    C1_partition wResume wJdGaps wOnt none _ "Systems & Structure" _ (by decide) rfl
      (by decide) (by decide)⟩

/-! ## C4: score bounds -/

theorem cdr_scores_bounds :
    ∀ (dkm : List (String × List String)) (jdw : Finset String) (rlow : String),
      ∀ p ∈ (computeDomainResults dkm jdw rlow).1, 0 ≤ p.2 ∧ p.2 ≤ 100
  | [], _, _ => by simp [computeDomainResults]
  | q :: rest, jdw, rlow => by
      intro p hp
      simp only [computeDomainResults] at hp
      split at hp
      · exact cdr_scores_bounds rest jdw rlow p hp
      · next hdjk =>
          rcases List.mem_cons.mp hp with heq | htail
          · have hsc : p.2 =
                roundTo1 ((((matchedList rlow (domainJdList q.2 jdw)).length : ℚ) /
                  ((domainJdList q.2 jdw).length : ℚ)) * 100) := congrArg Prod.snd heq
            rw [hsc]
            have hne : domainJdList q.2 jdw ≠ [] := by
              intro hnil
              rw [hnil] at hdjk
              exact hdjk rfl
            have hpos : 0 < (domainJdList q.2 jdw).length := List.length_pos.mpr hne
            have hle : (matchedList rlow (domainJdList q.2 jdw)).length ≤
                (domainJdList q.2 jdw).length := List.length_filter_le _ _
            obtain ⟨h0, h1⟩ := ratio100_bounds hle hpos
            exact roundTo1_bounds h0 h1
          · exact cdr_scores_bounds rest jdw rlow p htail

theorem triggeredScores_nonneg (gd : SocGroup) (dkm : List (String × List String))
    (jdw resw : Finset String) : ∀ x ∈ triggeredScores gd dkm jdw resw, 0 ≤ x := by
  intro x hx
  unfold triggeredScores at hx
  obtain ⟨dname, hmem, hfx⟩ := List.mem_filterMap.mp hx
  cases halk : alookup dname dkm with
  | none =>
      rw [halk] at hfx
      exact Option.noConfusion hfx
  | some dkl =>
      rw [halk] at hfx
      have hfx2 : (if (domainJdList dkl jdw).isEmpty = true then (none : Option ℚ)
          else some ((((domainJdList dkl jdw).filter (fun k => decide (k ∈ resw))).length : ℚ) /
            ((domainJdList dkl jdw).length : ℚ))) = some x := hfx
      by_cases hdjk : (domainJdList dkl jdw).isEmpty
      · rw [if_pos hdjk] at hfx2
        exact Option.noConfusion hfx2
      · rw [if_neg hdjk] at hfx2
        have hx2 : (((domainJdList dkl jdw).filter (fun k => decide (k ∈ resw))).length : ℚ) /
            ((domainJdList dkl jdw).length : ℚ) = x := Option.some.inj hfx2
        rw [← hx2]
        positivity

theorem groupScore_bounds (gname : String) (gd : SocGroup) (dkm : List (String × List String))
    (jdw resw : Finset String) :
    0 ≤ groupScore gname gd dkm jdw resw ∧ groupScore gname gd dkm jdw resw ≤ 100 := by
  simp only [groupScore]
  by_cases ht : 1 ≤ (triggeredScores gd dkm jdw resw).length
  · rw [if_pos ht]
    have hne : triggeredScores gd dkm jdw resw ≠ [] := by
      intro hnil
      rw [hnil] at ht
      simp at ht
    have hsum : 0 ≤ (triggeredScores gd dkm jdw resw).sum :=
      list_sum_nonneg _ (triggeredScores_nonneg gd dkm jdw resw)
    have hlen : (0 : ℚ) ≤ ((triggeredScores gd dkm jdw resw).length : ℚ) := by positivity
    have hs0n : 0 ≤ (triggeredScores gd dkm jdw resw).sum /
        ((triggeredScores gd dkm jdw resw).length : ℚ) * 100 :=
      mul_nonneg (div_nonneg hsum hlen) (by norm_num)
    split_ifs with h1 h2 h3 h4 <;>
      refine ⟨le_min ?_ (by norm_num), min_le_right _ _⟩
    · exact mul_nonneg hs0n (by norm_num)
    · exact mul_nonneg hs0n (by norm_num)
    · exact mul_nonneg hs0n (by norm_num)
    · exact mul_nonneg hs0n (by norm_num)
    · exact hs0n
  · rw [if_neg ht]
    norm_num

theorem fallbackLoop_bounds (dkm : List (String × List String)) (jdw resw : Finset String) :
    ∀ (socs : List (String × SocGroup)) (st : (Option String × ℚ) × List (String × ℚ)),
      (∀ p ∈ st.2, 0 ≤ p.2 ∧ p.2 ≤ 100) →
      ∀ p ∈ (fallbackLoop dkm jdw resw socs st).2, 0 ≤ p.2 ∧ p.2 ≤ 100
  | [], _, hst => hst
  | q :: rest, st, hst => by
      simp only [fallbackLoop]
      apply fallbackLoop_bounds dkm jdw resw rest
      have hval : 0 ≤ roundTo1 (groupScore q.1 q.2 dkm jdw resw) ∧
          roundTo1 (groupScore q.1 q.2 dkm jdw resw) ≤ 100 :=
        roundTo1_bounds (groupScore_bounds q.1 q.2 dkm jdw resw).1
          (groupScore_bounds q.1 q.2 dkm jdw resw).2
      split
      · exact dictSet_values st.2 q.1 (roundTo1 (groupScore q.1 q.2 dkm jdw resw))
          (fun v => 0 ≤ v ∧ v ≤ 100) hst hval
      · exact dictSet_values st.2 q.1 (roundTo1 (groupScore q.1 q.2 dkm jdw resw))
          (fun v => 0 ≤ v ∧ v ≤ 100) hst hval

theorem overrideFold_bounds :
    ∀ (socs : List (String × SocGroup)) (s : String) (acc : List (String × ℚ)),
      (∀ p ∈ acc, 0 ≤ p.2 ∧ p.2 ≤ 100) →
      ∀ p ∈ socs.foldl (fun a q => dictSet a q.1 (if q.1 = s then (100 : ℚ) else 0)) acc,
        0 ≤ p.2 ∧ p.2 ≤ 100
  | [], _, _, hacc => hacc
  | q :: rest, s, acc, hacc => by
      rw [List.foldl_cons]
      apply overrideFold_bounds rest s
      apply dictSet_values acc q.1 (if q.1 = s then (100 : ℚ) else 0)
        (fun v => 0 ≤ v ∧ v ≤ 100) hacc
      split_ifs <;> norm_num

theorem predictSoc_scores_bounds (ov : Option String) (jt : String) (jdw resw : Finset String)
    (dkm : List (String × List String)) (socs : List (String × SocGroup)) :
    ∀ p ∈ (predictSoc ov jt jdw resw dkm socs).2, 0 ≤ p.2 ∧ p.2 ≤ 100 := by
  unfold predictSoc
  split_ifs with h1 h2 h3 h4
  · exact overrideFold_bounds socs (ov.getD "") [] (by simp)
  · decide
  · decide
  · decide
  · exact fallbackLoop_bounds dkm jdw resw socs ((none, -1), []) (by simp)

theorem fillMissing_bounds :
    ∀ (keys : List String) (scores : List (String × ℚ)),
      (∀ p ∈ scores, 0 ≤ p.2 ∧ p.2 ≤ 100) →
      ∀ p ∈ fillMissing scores keys, 0 ≤ p.2 ∧ p.2 ≤ 100
  | [], _, h => h
  | k :: ks, scores, h => by
      unfold fillMissing
      rw [List.foldl_cons]
      apply fillMissing_bounds ks
      split_ifs
      · exact h
      · intro p hp
        rcases List.mem_append.mp hp with hp1 | hp2
        · exact h p hp1
        · rw [List.mem_singleton.mp hp2]
          norm_num

theorem overallScore_bounds (allKw : Finset String) (rlow jlow : String) :
    0 ≤ overallScore allKw rlow jlow ∧ overallScore allKw rlow jlow ≤ 100 := by
  unfold overallScore
  split_ifs with h1 h2
  · norm_num
  · exact ⟨le_min (by positivity) (by norm_num), min_le_right _ _⟩
  · exact ⟨le_min (by positivity) (by norm_num), min_le_right _ _⟩

theorem trust_vis_bounds (r : AnalysisResult)
    (hds : ∀ p ∈ r.domain_scores, 0 ≤ p.2 ∧ p.2 ≤ 100) :
    (0 ≤ (calculate_trust_visibility_scores r).1 ∧
        (calculate_trust_visibility_scores r).1 ≤ 100) ∧
      (0 ≤ (calculate_trust_visibility_scores r).2 ∧
        (calculate_trust_visibility_scores r).2 ≤ 100) := by
  simp only [calculate_trust_visibility_scores]
  constructor
  · by_cases hts : ((r.domain_scores.filter
        (fun p => decide (p.1 ∈ r.critical_domains))).map Prod.snd).isEmpty
    · rw [if_pos hts]
      exact roundTo1_bounds le_rfl (by norm_num)
    · rw [if_neg hts]
      have hne : (r.domain_scores.filter
          (fun p => decide (p.1 ∈ r.critical_domains))).map Prod.snd ≠ [] := by
        intro hnil
        rw [hnil] at hts
        exact hts rfl
      have hbnd : ∀ x ∈ (r.domain_scores.filter
          (fun p => decide (p.1 ∈ r.critical_domains))).map Prod.snd,
          0 ≤ x ∧ x ≤ 100 := by
        intro x hx
        obtain ⟨p, hp, hpx⟩ := List.mem_map.mp hx
        rw [← hpx]
        exact hds p (List.mem_of_mem_filter hp)
      obtain ⟨h0, h1⟩ := avg_bounds _ 0 100 hbnd hne
      exact roundTo1_bounds h0 h1
  · by_cases hgaps : r.domain_gaps.isEmpty
    · rw [if_pos hgaps]
      by_cases hsc : r.domain_scores.isEmpty
      · rw [if_pos hsc]
        exact roundTo1_bounds le_rfl (by norm_num)
      · rw [if_neg hsc]
        exact roundTo1_bounds (by norm_num) le_rfl
    · rw [if_neg hgaps]
      have hne : r.domain_gaps ≠ [] := by
        intro hnil
        rw [hnil] at hgaps
        exact hgaps rfl
      have hpos : 0 < r.domain_gaps.length := List.length_pos.mpr hne
      have hle : (r.domain_gaps.filter
          (fun p => decide ((40 : ℚ) < (alookup p.1 r.domain_scores).getD 0))).length ≤
          r.domain_gaps.length := List.length_filter_le _ _
      obtain ⟨h0, h1⟩ := ratio100_bounds hle hpos
      exact roundTo1_bounds h0 h1

/-- Claim C4: every score the analysis produces — each per-domain score,
each occupation-group score, the overall score, and the derived trust and
visibility scores — lies in the closed interval [0, 100]. -/
theorem C4_score_bounds (rt jt : String) (ont : Ontology) (ov : Option String)
    (r : AnalysisResult)
    (h : (run_enhanced_ontological_analysis rt jt ont ov).1 = some r) :
    (∀ p ∈ r.domain_scores, 0 ≤ p.2 ∧ p.2 ≤ 100) ∧
      (∀ p ∈ r.soc_scores, 0 ≤ p.2 ∧ p.2 ≤ 100) ∧
      (0 ≤ r.overall_score ∧ r.overall_score ≤ 100) ∧
      (0 ≤ (calculate_trust_visibility_scores r).1 ∧
        (calculate_trust_visibility_scores r).1 ≤ 100) ∧
      (0 ≤ (calculate_trust_visibility_scores r).2 ∧
        (calculate_trust_visibility_scores r).2 ≤ 100) := by
  have hr := run_eq_some h
  subst hr
  have hds : ∀ p ∈ (analysisCore rt jt ont ov).domain_scores, 0 ≤ p.2 ∧ p.2 ≤ 100 := by
    rw [analysisCore_domain_scores]
    exact cdr_scores_bounds _ _ _
  refine ⟨hds, ?_, ?_, (trust_vis_bounds _ hds).1, (trust_vis_bounds _ hds).2⟩
  · rw [analysisCore_soc_scores]
    exact fillMissing_bounds _ _ (predictSoc_scores_bounds _ _ _ _ _ _)
  · rw [analysisCore_overall]
    obtain ⟨h0, h1⟩ := overallScore_bounds
      (allJdKeywords (domain_keyword_map (applyBusinessOverrides ont.SignalDomains))
        (clean_and_extract_words jt)) (pyLower rt) (pyLower jt)
    exact roundTo1_bounds h0 h1

/-- Witness for C4: concrete bounds on the overall score of a real run,
obtained by applying the bounds theorem. -/
theorem C4_witness :
    0 ≤ (getRes (run_enhanced_ontological_analysis wResume wJdGaps wOnt
        none).1).overall_score ∧
      (getRes (run_enhanced_ontological_analysis wResume wJdGaps wOnt
        none).1).overall_score ≤ 100 :=
  (C4_score_bounds wResume wJdGaps wOnt none
    (getRes (run_enhanced_ontological_analysis wResume wJdGaps wOnt none).1) rfl).2.2.1

end PSA
